import Mathlib

/-!
Verification development for the kme-btcrs chain engine and wallet.

Shallow embedding notes.

The chain engine lives in src/lib/src/types/blockchain.rs; the Merkle
commitment in src/lib/src/util.rs; the wallet engine in
src/wallet/src/core.rs; constants in src/lib/src/lib.rs.  The crates
sha256.rs, crypto.rs, error.rs and the Block/BlockHeader module are
declared in lib.rs but their files are absent from src/, so those parts
are modelled from the spec (each such definition carries a doc comment
starting with the words Modelled from the spec).

Machine integers: u64 values are Nat; where wrap-around matters
(get_balance sums) the modulus 2 ^ 64 is explicit.  U256 values are Nat;
the retarget theorem carries the chain invariant target ≤ MIN_TARGET
under which no U256 multiplication overflows.  SHA-256 digests are
opaque: a HashSpec record supplies the four hash functions the engine
consumes (header, transaction, output, pair), and theorems quantify over
it; concrete instances are used for counterexamples and witnesses.
Wall-clock times (chrono DateTime) are Nat seconds passed explicitly as
a now parameter.  Rust panics (unwrap, expect) surface as the
Res.panicked outcome.
-/

/-- INITIAL_REWARD from src/lib/src/lib.rs. -/
def INITIAL_REWARD : Nat := 50

/-- HALVING_INTERVAL from src/lib/src/lib.rs. -/
def HALVING_INTERVAL : Nat := 210

/-- IDEAL_BLOCK_TIME from src/lib/src/lib.rs. -/
def IDEAL_BLOCK_TIME : Nat := 10

/-- DIFFICULTY_UPDATE_INTERVAL from src/lib/src/lib.rs. -/
def DIFFICULTY_UPDATE_INTERVAL : Nat := 50

/-- MAX_MEMPOOL_TRANSACTION_AGE from src/lib/src/lib.rs (seconds). -/
def MAX_MEMPOOL_TRANSACTION_AGE : Nat := 600

/-- MIN_TARGET from src/lib/src/lib.rs: U256 with little-endian limbs
0xFFFFFFFFFFFFFFFF, 0xFFFFFFFFFFFFFFFF, 0xFFFFFFFFFFFFFFFF,
0x000000FFFFFFFFFF. -/
def MIN_TARGET : Nat :=
  0xFFFFFFFFFFFFFFFF
    + 0xFFFFFFFFFFFFFFFF * 2 ^ 64
    + 0xFFFFFFFFFFFFFFFF * 2 ^ 128
    + 0x000000FFFFFFFFFF * 2 ^ 192

/-- Modulus of u64 arithmetic. -/
def U64MOD : Nat := 2 ^ 64

/-- Modelled from the spec (§3, crypto.rs is absent from src): a
signature is an opaque blob that verifies a 32-byte message under a
public key; the signing input for a transaction input is the hash of the
referenced output.  Symbolically a signature records the signed digest
and the key material that produced it; key pairs are identified with
their Nat key material. -/
structure Signature where
  msg : Nat
  key : Nat
deriving DecidableEq, Repr

/-- TransactionInput from src/lib/src/types/transaction.rs.  Hashes are
opaque Nat digests. -/
structure TransactionInput where
  prev_transaction_output_hash : Nat
  signature : Signature
deriving DecidableEq, Repr

/-- TransactionOutput from src/lib/src/types/transaction.rs: value in
sats, a 128-bit unique id, and the payee public key (opaque Nat). -/
structure TransactionOutput where
  value : Nat
  unique_id : Nat
  pubkey : Nat
deriving DecidableEq, Repr

/-- Transaction from src/lib/src/types/transaction.rs. -/
structure Transaction where
  inputs : List TransactionInput
  outputs : List TransactionOutput
deriving DecidableEq, Repr

/-- Modelled from the spec (§3; the Block/BlockHeader module used by
blockchain.rs is absent from src, the scaffold in src/lib/src/types.rs
shows the same field layout): the block header. -/
structure BlockHeader where
  timestamp : Nat
  nonce : Nat
  prev_block_hash : Nat
  merkle_root : Nat
  target : Nat
deriving DecidableEq, Repr

instance : Inhabited BlockHeader := ⟨⟨0, 0, 0, 0, 0⟩⟩

/-- Modelled from the spec (§3): a block is a header plus an ordered
transaction list whose first entry is the coinbase. -/
structure Block where
  header : BlockHeader
  transactions : List Transaction
deriving DecidableEq, Repr

instance : Inhabited Block := ⟨⟨default, []⟩⟩

/-- Blockchain from src/lib/src/types/blockchain.rs.  The utxos HashMap
becomes a key-unique association list from output-hash to
(TransactionOutput, marked); the mempool keeps its Vec order, with
admission timestamps as Nat seconds. -/
structure Blockchain where
  utxos : List (Nat × (TransactionOutput × Bool))
  blocks : List Block
  target : Nat
  mempool : List (Transaction × Nat)
deriving DecidableEq, Repr

/-- Modelled from the spec (§7, error.rs is absent from src): the error
variants the chain engine and wallet surface. -/
inductive BtcError where
  | invalidTransaction
  | invalidBlock
  | invalidMerkleRoot
  | invalidSignature
  | insufficientFunds
deriving DecidableEq, Repr

/-- Outcome of a fallible chain-engine call: an updated state, a
returned error, or a Rust panic (unwrap / expect / index failure). -/
inductive Res where
  | ok (s : Blockchain)
  | err (e : BtcError)
  | panicked
deriving DecidableEq, Repr

/-- The hash functions the engine consumes, kept opaque: SHA-256 itself
(sha256.rs) is absent from src and the claims do not depend on its
internals.  hHeader hashes a block header (block.hash = hash of its
header per §3), hTx a transaction, hOutput a transaction output, hPair a
two-digest array as used by the Merkle fold. -/
structure HashSpec where
  hHeader : BlockHeader → Nat
  hTx : Transaction → Nat
  hOutput : TransactionOutput → Nat
  hPair : Nat → Nat → Nat

/-- Modelled from the spec (§4.2, sha256.rs is absent from src):
matches_target is the big-endian U256 comparison hash ≤ target. -/
def matches_target (h t : Nat) : Bool := h ≤ t

/-- HashMap::contains_key on the utxo association list. -/
def ucontains (u : List (Nat × (TransactionOutput × Bool))) (k : Nat) : Bool :=
  u.any (fun p => p.1 = k)

/-- HashMap::get on the utxo association list. -/
def ulookup (u : List (Nat × (TransactionOutput × Bool))) (k : Nat) :
    Option (TransactionOutput × Bool) :=
  (u.find? (fun p => p.1 = k)).map (fun p => p.2)

/-- HashMap::entry(k).and_modify(set marked to b): flips the marked flag
of the entry with key k, if present. -/
def usetMark (u : List (Nat × (TransactionOutput × Bool))) (k : Nat) (b : Bool) :
    List (Nat × (TransactionOutput × Bool)) :=
  u.map (fun p => if p.1 = k then (p.1, (p.2.1, b)) else p)

/-- HashMap::insert: replace the entry with key k, or append it. -/
def uinsert (u : List (Nat × (TransactionOutput × Bool))) (k : Nat)
    (v : TransactionOutput × Bool) : List (Nat × (TransactionOutput × Bool)) :=
  if u.any (fun p => p.1 = k) then
    u.map (fun p => if p.1 = k then (k, v) else p)
  else u ++ [(k, v)]

/-- HashMap::remove by key. -/
def uerase (u : List (Nat × (TransactionOutput × Bool))) (k : Nat) :
    List (Nat × (TransactionOutput × Bool)) :=
  u.filter (fun p => ¬ p.1 = k)

/-- One folding level of MerkleRoot::calculate
(src/lib/src/util.rs, the chunks(2) pass): consecutive digests are
paired through Hash of the two-element array, a trailing singleton is
paired with itself. -/
def merkleLevel (hp : Nat → Nat → Nat) : List Nat → List Nat
  | [] => []
  | [x] => [hp x x]
  | a :: b :: rest => hp a b :: merkleLevel hp rest

/-- The while-loop of MerkleRoot::calculate, bounded by a fuel that is
structurally consumed so the definition computes inside the kernel.
Each pass over a layer of length n ≥ 2 shrinks it to (n+1)/2 ≤ n - 1,
so fuel equal to the initial length always suffices (the guard branch
returning 0 at fuel 0 with two or more digests left is unreachable; see
merkleFoldAux_fuel below).  The source indexes layer[0] at the end,
which panics on an empty transaction list (§4.3 calls that case a
fail); the model returns 0 there, a case no claim exercises. -/
def merkleFoldAux (hp : Nat → Nat → Nat) : Nat → List Nat → Nat
  | _, [] => 0
  | _, [x] => x
  | 0, _ :: _ :: _ => 0
  | fuel + 1, a :: b :: rest => merkleFoldAux hp fuel (merkleLevel hp (a :: b :: rest))

/-- MerkleRoot::calculate from src/lib/src/util.rs: hash every
transaction, then fold pairwise levels to a single root. -/
def merkleRoot (hs : HashSpec) (txs : List Transaction) : Nat :=
  merkleFoldAux hs.hPair (txs.map hs.hTx).length (txs.map hs.hTx)

/-- Blockchain::calculate_block_reward from
src/lib/src/types/blockchain.rs, as a function of block_height:
(INITIAL_REWARD * 10^8) >> (height / HALVING_INTERVAL) on u64.  A Rust
shift by 64 or more is an arithmetic overflow: release builds mask the
shift amount to six bits (modelled here), debug builds panic. -/
def calculate_block_reward (block_height : Nat) : Nat :=
  let halvings := block_height / HALVING_INTERVAL
  (INITIAL_REWARD * 10 ^ 8) >>> (halvings % 64)

/-- Modelled from the spec (§3 and §4.5, crypto.rs is absent from src):
a signature verifies the digest h under public key pk iff it was
produced by signing h with the matching private key; in the symbolic
model that is component equality. -/
def sigVerify (sig : Signature) (h : Nat) (pk : Nat) : Bool :=
  sig.msg = h && sig.key = pk

/-- Sum of the values of a transaction's outputs. -/
def outputSum (t : Transaction) : Nat :=
  (t.outputs.map (fun o => o.value)).sum

/-- Sum of the utxo values a transaction's inputs reference (0 for a
hash absent from the map, a case the callers below rule out first). -/
def inputSum (u : List (Nat × (TransactionOutput × Bool))) (t : Transaction) : Nat :=
  (t.inputs.map (fun i =>
    ((ulookup u i.prev_transaction_output_hash).map (fun p => p.1.value)).getD 0)).sum

/-- Modelled from the spec (§4.5, the Block impl is absent from src):
Block::verify_transactions for a candidate block at predicted_height
against the utxo map.  Checks, over the source utxo map: exactly one
coinbase (the first transaction, zero inputs, every later transaction
has inputs), every non-coinbase input resolves in utxos, each input's
signature verifies its prev hash under that output's pubkey, no
output-hash is spent twice within the block, every non-coinbase
transaction has input sum ≥ output sum, and the coinbase output sum
equals reward(predicted_height) plus the sum of the fees. -/
def verify_transactions (u : List (Nat × (TransactionOutput × Bool)))
    (predicted_height : Nat) (b : Block) : Bool :=
  match b.transactions with
  | [] => false
  | coinbase :: rest =>
    coinbase.inputs.isEmpty
    && rest.all (fun t => ¬ t.inputs.isEmpty)
    && rest.all (fun t => t.inputs.all (fun i =>
         ucontains u i.prev_transaction_output_hash))
    && rest.all (fun t => t.inputs.all (fun i =>
         (((ulookup u i.prev_transaction_output_hash).map
             (fun p => sigVerify i.signature i.prev_transaction_output_hash p.1.pubkey)).getD
           false)))
    && decide ((b.transactions.flatMap (fun t => t.inputs.map
         (fun i => i.prev_transaction_output_hash))).Nodup)
    && rest.all (fun t => outputSum t ≤ inputSum u t)
    && decide (outputSum coinbase
         = calculate_block_reward predicted_height
           + (rest.map (fun t => inputSum u t - outputSum t)).sum)

/-- Blockchain::try_adjust_target from src/lib/src/types/blockchain.rs.
No-op unless the chain is non-empty and its length is a multiple of
DIFFICULTY_UPDATE_INTERVAL.  The source computes
target * time_diff / target_seconds through a BigDecimal detour
(decimal parse, exact multiply, divide, truncate at the decimal point,
decimal parse into U256); division by target_seconds = 500 = 2^2 * 5^3
is exact in decimal within BigDecimal's default precision, so for a
non-negative time difference the detour equals the floor division
written here.  Timestamps are Nat seconds, so time_diff uses truncated
subtraction; the source's signed path (which would panic parsing a
negative decimal string) is outside every claim's range.  U256
multiplication by 4 is written without a 2^256 reduction: under chain
invariant 5 (target ≤ MIN_TARGET, a hypothesis of the retarget theorem)
it cannot overflow, and the source's uint type panics when it would. -/
def try_adjust_target (s : Blockchain) : Blockchain :=
  if s.blocks.isEmpty then s
  else if ¬ s.blocks.length % DIFFICULTY_UPDATE_INTERVAL = 0 then s
  else
    let start_time :=
      ((s.blocks.getD (s.blocks.length - DIFFICULTY_UPDATE_INTERVAL) default).header).timestamp
    let end_time := ((s.blocks.getLastD default).header).timestamp
    let time_diff_seconds := end_time - start_time
    let target_seconds := IDEAL_BLOCK_TIME * DIFFICULTY_UPDATE_INTERVAL
    let raw_target := s.target * time_diff_seconds / target_seconds
    let new_target :=
      if raw_target < s.target / 4 then s.target / 4
      else if raw_target > s.target * 4 then s.target * 4
      else raw_target
    { s with target := min new_target MIN_TARGET }

/-- Blockchain::add_block from src/lib/src/types/blockchain.rs.  On an
empty chain only the zero prev-hash is checked.  On a non-empty chain
the source compares prev_block_hash with the tip's header hash but only
prints on mismatch and keeps going; then come the target, Merkle-root
and strict-timestamp checks, and verify_transactions whose Err is
unwrapped (a panic).  On success the mempool drops every transaction
whose hash appears in the block, the block is pushed, and
try_adjust_target runs. -/
def add_block (hs : HashSpec) (s : Blockchain) (b : Block) : Res :=
  if s.blocks.isEmpty then
    if ¬ b.header.prev_block_hash = 0 then Res.err BtcError.invalidBlock
    else
      let keep := s.mempool.filter (fun e =>
        ¬ (b.transactions.map hs.hTx).contains (hs.hTx e.1))
      Res.ok (try_adjust_target { s with mempool := keep, blocks := s.blocks ++ [b] })
  else
    -- source: prev-hash mismatch with the tip is only printed, not returned
    if ¬ matches_target (hs.hHeader b.header) b.header.target then
      Res.err BtcError.invalidBlock
    else if ¬ merkleRoot hs b.transactions = b.header.merkle_root then
      Res.err BtcError.invalidMerkleRoot
    else if b.header.timestamp ≤ ((s.blocks.getLastD default).header).timestamp then
      Res.err BtcError.invalidBlock
    else if ¬ verify_transactions s.utxos s.blocks.length b then
      Res.panicked
    else
      let keep := s.mempool.filter (fun e =>
        ¬ (b.transactions.map hs.hTx).contains (hs.hTx e.1))
      Res.ok (try_adjust_target { s with mempool := keep, blocks := s.blocks ++ [b] })

/-- The per-transaction body of Blockchain::rebuild_utxos: remove every
utxo the transaction's inputs reference, then insert each output under
the transaction's hash, unmarked. -/
def rebuildStep (hs : HashSpec) (u : List (Nat × (TransactionOutput × Bool)))
    (t : Transaction) : List (Nat × (TransactionOutput × Bool)) :=
  let u1 := t.inputs.foldl (fun u i => uerase u i.prev_transaction_output_hash) u
  t.outputs.foldl (fun u o => uinsert u (hs.hTx t) (o, false)) u1

/-- Blockchain::rebuild_utxos from src/lib/src/types/blockchain.rs:
walk the blocks in order; per transaction remove every utxo a spend
references, then insert each output under the transaction's hash
(not the output's own hash), unmarked. -/
def rebuild_utxos (hs : HashSpec) (s : Blockchain) : Blockchain :=
  { s with utxos :=
      s.blocks.foldl (fun u b => b.transactions.foldl (rebuildStep hs) u) s.utxos }

/-- Blockchain::cleanup_mempool from src/lib/src/types/blockchain.rs.
The source calls retain on self.mempool().to_vec(), a clone that is
immediately dropped, so the mempool itself is never shrunk; the retain
closure still runs and collects, from every entry older than
MAX_MEMPOOL_TRANSACTION_AGE, the utxo hashes its inputs reference, and
those entries' utxos are then unmarked. -/
def cleanup_mempool (now : Nat) (s : Blockchain) : Blockchain :=
  let expired := s.mempool.filter (fun e =>
    now - e.2 > MAX_MEMPOOL_TRANSACTION_AGE)
  let hashes := expired.flatMap (fun e =>
    e.1.inputs.map (fun i => i.prev_transaction_output_hash))
  { s with utxos := hashes.foldl (fun u h => usetMark u h false) s.utxos }

/-- The conflict scan of Blockchain::add_to_mempool (the second loop
over the new transaction's inputs): for each input whose utxo is
marked, the source searches the mempool for a transaction one of whose
OUTPUTS hashes to the input's prev hash (List.findIdx? mirrors
Iterator::find over enumerate); a found index is queued for removal,
otherwise the mark is treated as stale and cleared in place.  The
mempool itself is read-only during this loop. -/
def scanConflicts (hs : HashSpec) (mp : List (Transaction × Nat)) :
    List TransactionInput → List (Nat × (TransactionOutput × Bool)) → List Nat →
    (List (Nat × (TransactionOutput × Bool)) × List Nat)
  | [], u, acc => (u, acc)
  | i :: rest, u, acc =>
    match ulookup u i.prev_transaction_output_hash with
    | some (_, true) =>
      match mp.findIdx? (fun e => e.1.outputs.any (fun o =>
          hs.hOutput o = i.prev_transaction_output_hash)) with
      | some idx => scanConflicts hs mp rest u (acc ++ [idx])
      | none => scanConflicts hs mp rest (usetMark u i.prev_transaction_output_hash false) acc
    | _ => scanConflicts hs mp rest u acc

/-- Clear the marks of every utxo a list of inputs references. -/
def unmarkInputs (u : List (Nat × (TransactionOutput × Bool)))
    (ins : List TransactionInput) : List (Nat × (TransactionOutput × Bool)) :=
  ins.foldl (fun u i => usetMark u i.prev_transaction_output_hash false) u

/-- Ordered insertion into an ascending list of indices. -/
def insertNat (x : Nat) : List Nat → List Nat
  | [] => [x]
  | y :: ys => if x ≤ y then x :: y :: ys else y :: insertNat x ys

/-- Sort a list of Vec indices ascending (the source's sort_unstable on
usize; any correct sort produces the same list). -/
def sortNat (l : List Nat) : List Nat :=
  l.foldl (fun acc x => insertNat x acc) []

/-- Vec::dedup: drop consecutive repeated elements. -/
def dedupSorted : List Nat → List Nat
  | [] => []
  | [x] => [x]
  | a :: b :: rest =>
    if a = b then dedupSorted (b :: rest) else a :: dedupSorted (b :: rest)

instance : Inhabited Transaction := ⟨⟨[], []⟩⟩

/-- The removal loop of Blockchain::add_to_mempool: indices (already
sorted ascending, deduplicated, and here supplied in reverse order as
the source iterates) are removed from the mempool one by one, and each
removed transaction's inputs are unmarked.  Vec::remove on a valid
index is List.eraseIdx; the getD default never fires for the in-range
indices findIdx? produces. -/
def removeEntries :
    List Nat → List (Transaction × Nat) → List (Nat × (TransactionOutput × Bool)) →
    (List (Transaction × Nat) × List (Nat × (TransactionOutput × Bool)))
  | [], mp, u => (mp, u)
  | idx :: rest, mp, u =>
    let removed := mp.getD idx default
    removeEntries rest (mp.eraseIdx idx) (unmarkInputs u removed.1.inputs)


/-- Miner fee of a mempool transaction, as the source's sort key
computes it: sum of the referenced utxo values minus the output sum
(u64 subtraction; admitted entries always satisfy input ≥ output, so
the Nat truncation never fires on reachable states). -/
def txFee (u : List (Nat × (TransactionOutput × Bool))) (t : Transaction) : Nat :=
  inputSum u t - outputSum t

/-- Stable ascending insertion into a fee-sorted mempool: strictly
smaller keys pass, equal keys keep their existing order, matching
Vec::sort_by_key's stable sort. -/
def insertByFee (u : List (Nat × (TransactionOutput × Bool)))
    (x : Transaction × Nat) : List (Transaction × Nat) → List (Transaction × Nat)
  | [] => [x]
  | y :: ys => if txFee u x.1 < txFee u y.1 then x :: y :: ys else y :: insertByFee u x ys

/-- Stable insertion sort of the mempool ascending by fee, the
semantics of the source's sort_by_key over a stable sort. -/
def sortByFee (u : List (Nat × (TransactionOutput × Bool)))
    (mp : List (Transaction × Nat)) : List (Transaction × Nat) :=
  mp.foldl (fun acc x => insertByFee u x acc) []

/-- Blockchain::add_to_mempool from src/lib/src/types/blockchain.rs,
with the admission instant passed as now.  First loop: reject unless
every input's prev hash is a utxo key and the input hashes are pairwise
distinct (both failures return InvalidTransaction, so folding them into
one condition is faithful).  Second loop and removal: scanConflicts and
removeEntries above, with the queued indices sorted, deduplicated and
walked in reverse.  Then the fee check (inputs may not be below
outputs), marking of every referenced utxo, push of (tx, now), and the
stable ascending fee sort. -/
def add_to_mempool (hs : HashSpec) (now : Nat) (s : Blockchain) (tx : Transaction) : Res :=
  if ¬ tx.inputs.all (fun i => ucontains s.utxos i.prev_transaction_output_hash) then
    Res.err BtcError.invalidTransaction
  else if ¬ (tx.inputs.map (fun i => i.prev_transaction_output_hash)).Nodup then
    Res.err BtcError.invalidTransaction
  else
    let scanned := scanConflicts hs s.mempool tx.inputs s.utxos []
    let to_remove := dedupSorted (sortNat scanned.2)
    let pruned := removeEntries to_remove.reverse s.mempool scanned.1
    let all_inputs := inputSum pruned.2 tx
    let all_outputs := outputSum tx
    if all_inputs < all_outputs then Res.err BtcError.invalidTransaction
    else
      let marked := tx.inputs.foldl (fun u i =>
        usetMark u i.prev_transaction_output_hash true) pruned.2
      let mp := pruned.1 ++ [(tx, now)]
      Res.ok { s with utxos := marked, mempool := sortByFee marked mp }

/-- A loaded wallet key pair from src/wallet/src/core.rs (LoadedKey);
key material is symbolic Nat, matching pairs share it. -/
structure LoadedKey where
  public : Nat
  private_key : Nat
deriving DecidableEq, Repr

instance : Inhabited LoadedKey := ⟨⟨0, 0⟩⟩

/-- The wallet state from src/wallet/src/core.rs (Core.utxos, an
UtxoStore): the loaded key pairs in load order, and the SkipMap from
owned public key to its observed (TransactionOutput, marked) list,
modelled as an association list in the SkipMap's key-ascending
iteration order. -/
structure WalletCore where
  keys : List LoadedKey
  utxos : List (Nat × List (TransactionOutput × Bool))
deriving DecidableEq, Repr

/-- Signature::sign_output as create_transaction uses it, in the
symbolic crypto model (crypto.rs is absent from src; per §3 the signing
input is the hash of the referenced output). -/
def sign_output (h : Nat) (priv : Nat) : Signature := ⟨h, priv⟩

/-- The private key the source looks up with
keys.iter().find(k.public == pubkey).unwrap(); the entries iterated
over were inserted per owned key, so the lookup succeeds on reachable
states and the getD default never fires. -/
def privFor (keys : List LoadedKey) (pk : Nat) : Nat :=
  ((keys.find? (fun k => k.public = pk)).map (fun k => k.private_key)).getD 0

/-- The inner utxo walk of Core::create_transaction over one key's
list: marked outputs are skipped, the loop breaks at the first unmarked
output once input_sum ≥ total_amount, otherwise it pushes an input
signed with that key's private key and accumulates the value. -/
def walkEntry (hs : HashSpec) (keys : List LoadedKey) (pk : Nat) (total : Nat) :
    List (TransactionOutput × Bool) → List TransactionInput → Nat →
    (List TransactionInput × Nat)
  | [], acc, sum => (acc, sum)
  | (utxo, marked) :: rest, acc, sum =>
    if marked then walkEntry hs keys pk total rest acc sum
    else if total ≤ sum then (acc, sum)
    else
      walkEntry hs keys pk total rest
        (acc ++ [⟨hs.hOutput utxo, sign_output (hs.hOutput utxo) (privFor keys pk)⟩])
        (sum + utxo.value)

/-- The outer walk of Core::create_transaction over the store's
entries: after each key's list the loop breaks once
input_sum ≥ total_amount. -/
def walkStore (hs : HashSpec) (keys : List LoadedKey) (total : Nat) :
    List (Nat × List (TransactionOutput × Bool)) → List TransactionInput → Nat →
    (List TransactionInput × Nat)
  | [], acc, sum => (acc, sum)
  | (pk, us) :: rest, acc, sum =>
    let stepped := walkEntry hs keys pk total us acc sum
    if total ≤ stepped.2 then stepped
    else walkStore hs keys total rest stepped.1 stepped.2

/-- Core::create_transaction from src/wallet/src/core.rs.  The fee is
the result of calculate_fee (floating-point fee policy, evaluated
outside the model and passed in); total = amount + fee.  The walk
accumulates signed inputs over unmarked utxos; if it exhausts below
total the call fails with the insufficient-funds error.  The first
output pays amount to keys[0].public (the source ignores the recipient
argument when building outputs); a change output of
input_sum - total_amount to keys[0].public is appended when that
difference is positive.  uid1 and uid2 stand for the two random
uuids. -/
def create_transaction (hs : HashSpec) (w : WalletCore) (recipient : Nat)
    (amount fee uid1 uid2 : Nat) : Except BtcError Transaction :=
  let total_amount := amount + fee
  let walked := walkStore hs w.keys total_amount w.utxos [] 0
  if walked.2 < total_amount then Except.error BtcError.insufficientFunds
  else
    let firstOut : TransactionOutput :=
      ⟨amount, uid1, ((w.keys.getD 0 default).public)⟩
    let outputs :=
      if total_amount < walked.2 then
        [firstOut, ⟨walked.2 - total_amount, uid2, ((w.keys.getD 0 default).public)⟩]
      else [firstOut]
    Except.ok ⟨walked.1, outputs⟩

/-- A u64 accumulating sum as Iterator::sum computes it: each addition
reduced modulo 2^64 (release-build wrap-around; debug builds panic on
the first overflow). -/
def wsum (l : List Nat) : Nat :=
  l.foldl (fun a v => (a + v) % U64MOD) 0

/-- Core::get_balance from src/wallet/src/core.rs: the u64 sum over
every store entry of the u64 sum of that entry's output values; the
marked flag is never consulted. -/
def get_balance (w : WalletCore) : Nat :=
  wsum (w.utxos.map (fun e => wsum (e.2.map (fun p => p.1.value))))

/-- The exact (unbounded) total of every output value in the wallet
store, marked or not. -/
def totalValue (w : WalletCore) : Nat :=
  (w.utxos.map (fun e => (e.2.map (fun p => p.1.value)).sum)).sum

/-- Rewrite every marked flag in a wallet store by an arbitrary
function of the key, the output and the old flag. -/
def mapMarks (f : Nat → TransactionOutput → Bool → Bool) (w : WalletCore) : WalletCore :=
  { w with utxos := w.utxos.map (fun e =>
      (e.1, e.2.map (fun p => (p.1, f e.1 p.1 p.2)))) }


/-- A concrete hash model for counterexamples and witnesses: headers
hash to their nonce, transactions to 0, outputs to their value, paired
digests to successor of the sum. -/
def cHS1 : HashSpec := ⟨fun h => h.nonce, fun _ => 0, fun o => o.value, fun a b => a + b + 1⟩

/-- A coinbase paying the full height-1 reward. -/
def cb0 : Transaction := ⟨[], [⟨5000000000, 0, 7⟩]⟩

/-- A genesis block with zero prev hash. -/
def B0 : Block := ⟨⟨100, 99, 0, 0, MIN_TARGET⟩, [cb0]⟩

/-- A one-block chain holding B0, at the initial target, with empty
utxo set and mempool. -/
def s1 : Blockchain := ⟨[], [B0], MIN_TARGET, []⟩

/-- The height-1 coinbase of the next block. -/
def cb1 : Transaction := ⟨[], [⟨5000000000, 1, 7⟩]⟩

/-- A block whose prev_block_hash 42 differs from B0's header hash
(cHS1 hashes headers to their nonce, 99) but which satisfies the
target, Merkle-root, timestamp and transaction-verification checks. -/
def B1 : Block := ⟨⟨200, 1, 42, 0, MIN_TARGET⟩, [cb1]⟩

/-- s1 with B1 appended and nothing else changed. -/
def s1res : Blockchain := ⟨[], [B0, B1], MIN_TARGET, []⟩

/-- Like B1 with the correct prev hash 99 but a coinbase paying 7
instead of reward(1) = 5000000000, so transaction verification fails. -/
def B6 : Block := ⟨⟨200, 1, 99, 0, MIN_TARGET⟩, [⟨[], [⟨7, 0, 7⟩]⟩]⟩

/-- A second concrete hash model: headers to their nonce, transactions
to their output sum, outputs to their value, pairs to the sum. -/
def cHS2 : HashSpec := ⟨fun h => h.nonce, fun t => outputSum t, fun o => o.value, fun a b => a + b⟩

/-- The contested utxo: value 10, payable to key 1, stored under
output-hash key 5. -/
def utxoU : TransactionOutput := ⟨10, 0, 1⟩

/-- Chain state with the single unmarked utxo U and an empty mempool. -/
def s2start : Blockchain := ⟨[(5, (utxoU, false))], [], MIN_TARGET, []⟩

/-- T1 spends U (input prev hash 5) into an output of value 3; its
output hashes to 3 under cHS2, not to 5. -/
def T1 : Transaction := ⟨[⟨5, ⟨5, 1⟩⟩], [⟨3, 10, 2⟩]⟩

/-- T2 also spends U, into an output of value 4. -/
def T2 : Transaction := ⟨[⟨5, ⟨5, 1⟩⟩], [⟨4, 11, 3⟩]⟩

/-- The state after admitting T1 at time 0: U marked, T1 pooled. -/
def s2mid : Blockchain := ⟨[(5, (utxoU, true))], [], MIN_TARGET, [(T1, 0)]⟩

/-- The state after admitting the conflicting T2 at time 7: U still
marked, both T1 and T2 pooled (T2 first: its fee 6 undercuts T1's 7). -/
def s2end : Blockchain := ⟨[(5, (utxoU, true))], [], MIN_TARGET, [(T2, 7), (T1, 0)]⟩

/-- s2mid after cleanup at time 601: U unmarked yet T1 still pooled. -/
def s4res : Blockchain := ⟨[(5, (utxoU, false))], [], MIN_TARGET, [(T1, 0)]⟩

/-- A wallet owning key pair 1 with one unmarked utxo of value 100. -/
def w5 : WalletCore := ⟨[⟨1, 1⟩], [(1, [(⟨100, 20, 1⟩, false)])]⟩

/-- The transaction create_transaction builds from w5 for amount 10 and
fee 1: one input consuming the value-100 utxo (which hashes to 100
under cHS2), a first output paying 10 to the wallet's own key 1, and
change of 89 back to key 1. -/
def tx5 : Transaction := ⟨[⟨100, ⟨100, 1⟩⟩], [⟨10, 30, 1⟩, ⟨89, 31, 1⟩]⟩

/-- A content-free block carrying only a timestamp, for the retarget
witness. -/
def mkB (t : Nat) : Block := ⟨⟨t, 0, 0, 0, 0⟩, []⟩

/-- A 50-block chain at the initial target whose window spans
timestamps 0 to 490, so the measured interval is 490 seconds against
the ideal 500. -/
def s8 : Blockchain := ⟨[], (List.range 50).map (fun i => mkB (10 * i)), MIN_TARGET, []⟩

/-- An empty chain in its initial state (Blockchain::new). -/
def emptyChain : Blockchain := ⟨[], [], MIN_TARGET, []⟩

/-- A candidate genesis block with zero prev hash whose header target
field is 0, strictly below its header hash (3, the nonce, under
cHS1). -/
def Bgen : Block := ⟨⟨1000, 3, 0, 0, 0⟩, [cb0]⟩

/-- The chain after accepting Bgen on the empty chain. -/
def sGenRes : Blockchain := ⟨[], [Bgen], MIN_TARGET, []⟩

/-- Length of a Merkle folding level. -/
theorem merkleLevel_length (hp : Nat → Nat → Nat) :
    ∀ l : List Nat, (merkleLevel hp l).length = (l.length + 1) / 2
  | [] => rfl
  | [_] => by simp [merkleLevel]
  | _ :: _ :: rest => by
      simp only [merkleLevel, List.length_cons, merkleLevel_length hp rest]
      omega

/-- The fuel argument of merkleFoldAux is irrelevant once it reaches
the layer's length: the fold stabilises before running out. -/
theorem merkleFoldAux_fuel (hp : Nat → Nat → Nat) :
    ∀ f g l, l.length ≤ f → l.length ≤ g →
      merkleFoldAux hp f l = merkleFoldAux hp g l
  | _, _, [], _, _ => by simp [merkleFoldAux]
  | _, _, [_], _, _ => by simp [merkleFoldAux]
  | 0, _, _ :: _ :: _, hf, _ => by simp at hf
  | _ + 1, 0, _ :: _ :: _, _, hg => by simp at hg
  | f + 1, g + 1, a :: b :: rest, hf, hg => by
      simp only [merkleFoldAux]
      apply merkleFoldAux_fuel hp f g (merkleLevel hp (a :: b :: rest))
      · have := merkleLevel_length hp (a :: b :: rest)
        simp only [List.length_cons] at hf this ⊢
        omega
      · have := merkleLevel_length hp (a :: b :: rest)
        simp only [List.length_cons] at hg this ⊢
        omega
  termination_by f _ l => f + l.length
  decreasing_by
    simp only [merkleLevel_length, List.length_cons]
    omega

/-- try_adjust_target only rewrites the target field; the utxo map
survives untouched. -/
theorem try_adjust_target_utxos (s : Blockchain) :
    (try_adjust_target s).utxos = s.utxos := by
  unfold try_adjust_target
  split
  · rfl
  · split
    · rfl
    · rfl

/-- A wrapping u64 fold equals the plain sum reduced once. -/
theorem foldl_wadd (l : List Nat) : ∀ a : Nat,
    l.foldl (fun a v => (a + v) % U64MOD) (a % U64MOD) = (a + l.sum) % U64MOD := by
  induction l with
  | nil => intro a; simp
  | cons v t ih =>
      intro a
      simp only [List.foldl_cons, List.sum_cons]
      rw [Nat.mod_add_mod, ih (a + v), Nat.add_assoc]

/-- wsum is the plain sum modulo 2^64. -/
theorem wsum_eq (l : List Nat) : wsum l = l.sum % U64MOD := by
  unfold wsum
  have := foldl_wadd l 0
  rwa [Nat.zero_mod, Nat.zero_add] at this

/-- Reducing each summand modulo 2^64 does not change a sum taken
modulo 2^64. -/
theorem sum_map_mod {α : Type} (l : List α) (g : α → Nat) :
    ((l.map (fun x => g x % U64MOD)).sum) % U64MOD = ((l.map g).sum) % U64MOD := by
  induction l with
  | nil => rfl
  | cons x t ih =>
      simp only [List.map_cons, List.sum_cons]
      rw [Nat.add_mod, Nat.mod_mod_of_dvd _ (dvd_refl U64MOD), ih, ← Nat.add_mod]

/-- C1.  The claim says a block whose prev_block_hash differs from the
tip's header hash is rejected with InvalidBlock and the chain is left
unchanged.  The source only prints on the mismatch and continues: at
the concrete one-block chain s1, the block B1 carries prev hash 42
while the tip's header hashes to 99, yet add_block returns Ok and
appends B1. -/
theorem c1_add_block_accepts_mismatched_prev_hash :
    ¬ B1.header.prev_block_hash = cHS1.hHeader B0.header
    ∧ add_block cHS1 s1 B1 = Res.ok s1res
    ∧ s1res.blocks = s1.blocks ++ [B1] := by
  refine ⟨by decide, by decide, by decide⟩

/-- C2.  The claim says admitting T2 that spends the already-marked
utxo U evicts the mempool entry T1 that is spending U, unmarking T1's
inputs.  The source instead scans mempool OUTPUT hashes for U's key:
T1 outputs nothing hashing to 5, so the mark is treated as stale, U is
unmarked and re-marked, and both spenders stay pooled.  Concretely:
admitting T1 at time 0 marks U; the subsequent successful admission of
T2 at time 7 leaves (T1, 0) in the mempool. -/
theorem c2_conflicting_admission_keeps_first_spender :
    add_to_mempool cHS2 0 s2start T1 = Res.ok s2mid
    ∧ T1.inputs.map (fun i => i.prev_transaction_output_hash) = [5]
    ∧ ulookup s2mid.utxos 5 = some (utxoU, true)
    ∧ add_to_mempool cHS2 7 s2mid T2 = Res.ok s2end
    ∧ (T1, 0) ∈ s2end.mempool := by
  refine ⟨by decide, by decide, by decide, by decide, by decide⟩

/-- C3 counterexample.  The claim includes the first block appended to
an empty chain in the hash-below-target invariant, but the source's
empty-chain branch checks only the zero prev hash: the genesis
candidate Bgen (header hash 3, header target 0) is accepted even
though its hash exceeds its target. -/
theorem c3_first_block_skips_target_check :
    add_block cHS1 emptyChain Bgen = Res.ok sGenRes
    ∧ matches_target (cHS1.hHeader Bgen.header) Bgen.header.target = false := by
  refine ⟨by decide, by decide⟩

/-- C3 amended.  For every block accepted by add_block onto a
NON-EMPTY chain, the header hash satisfies the target comparison; the
first block of a chain is appended without this check. -/
theorem c3_target_checked_after_first (hs : HashSpec) (s : Blockchain) (b : Block)
    (s' : Blockchain) (hne : ¬ s.blocks = []) (hok : add_block hs s b = Res.ok s') :
    matches_target (hs.hHeader b.header) b.header.target = true := by
  unfold add_block at hok
  split at hok
  · rename_i hemp
    exact absurd (List.isEmpty_iff.mp hemp) hne
  · split at hok
    · exact Res.noConfusion hok
    · rename_i hcond
      exact Decidable.not_not.mp hcond

/-- C3 amended, witnessed at the one-block chain s1 and the otherwise
valid block B1. -/
theorem c3_target_checked_after_first_witness :
    (¬ s1.blocks = [])
    ∧ add_block cHS1 s1 B1 = Res.ok s1res
    ∧ matches_target (cHS1.hHeader B1.header) B1.header.target = true :=
  ⟨by decide, by decide,
    c3_target_checked_after_first cHS1 s1 B1 s1res (by decide) (by decide)⟩

/-- C4.  The claim says cleanup_mempool evicts every entry older than
MAX_MEMPOOL_TRANSACTION_AGE and unmarks its utxos.  The source calls
retain on a clone of the mempool, so nothing is evicted: at state
s2mid holding (T1, 0), cleanup at time 601 (age 601 > 600) unmarks
T1's utxo U yet keeps (T1, 0) pooled. -/
theorem c4_cleanup_mempool_keeps_expired_entry :
    cleanup_mempool 601 s2mid = s4res
    ∧ 601 - (0 : Nat) > MAX_MEMPOOL_TRANSACTION_AGE
    ∧ (T1, 0) ∈ (cleanup_mempool 601 s2mid).mempool
    ∧ ulookup (cleanup_mempool 601 s2mid).utxos 5 = some (utxoU, false) := by
  refine ⟨by decide, by decide, by decide, by decide⟩

/-- C5.  The claim says the first output of a successful
create_transaction pays the requested amount to the RECIPIENT.  The
source builds both outputs with the wallet's own first key: for wallet
w5 (single key 1, one unmarked utxo of 100), recipient 2, amount 10,
fee 1, the call succeeds and pays output values [10, 89] both to
pubkey 1, not to the recipient 2. -/
theorem c5_create_transaction_pays_wallet_not_recipient :
    create_transaction cHS2 w5 2 10 1 30 31 = Except.ok tx5
    ∧ tx5.outputs.map (fun o => o.pubkey) = [1, 1]
    ∧ tx5.outputs.map (fun o => o.value) = [10, 89]
    ∧ ¬ (1 : Nat) = 2 := by
  refine ⟨by rfl, by decide, by decide, by decide⟩

/-- C6.  The claim says add_block returns an Err (and never panics)
when the block's transactions fail verification.  The source unwraps
verify_transactions' result: at the one-block chain s1, block B6
passes the prev-hash, target, Merkle and timestamp checks but its
coinbase pays 7 instead of reward(1) + fees = 5000000000, and
add_block panics instead of returning the error. -/
theorem c6_add_block_panics_on_invalid_transactions :
    verify_transactions s1.utxos s1.blocks.length B6 = false
    ∧ add_block cHS1 s1 B6 = Res.panicked := by
  refine ⟨by decide, by decide⟩

/-- C7 counterexample.  The claim says a successful add_block itself
inserts the block's outputs into utxos and removes spent entries.  At
the one-block chain s1, appending B1 (whose coinbase has an output)
succeeds yet the utxo map stays empty. -/
theorem c7_successful_add_block_does_not_insert_outputs :
    add_block cHS1 s1 B1 = Res.ok s1res
    ∧ ¬ cb1.outputs = []
    ∧ B1.transactions = [cb1]
    ∧ s1res.utxos = [] := by
  refine ⟨by decide, by decide, by decide, by decide⟩

/-- C7 amended.  Every successful add_block leaves the utxos map
exactly as it was: utxo entries are created and destroyed only by a
separate rebuild_utxos walk (which keys outputs by transaction
hash). -/
theorem c7_add_block_preserves_utxos (hs : HashSpec) (s : Blockchain) (b : Block)
    (s' : Blockchain) (hok : add_block hs s b = Res.ok s') : s'.utxos = s.utxos := by
  unfold add_block at hok
  split at hok
  · split at hok
    · exact Res.noConfusion hok
    · injection hok with h
      subst h
      exact try_adjust_target_utxos _
  · split at hok
    · exact Res.noConfusion hok
    · split at hok
      · exact Res.noConfusion hok
      · split at hok
        · exact Res.noConfusion hok
        · split at hok
          · exact Res.noConfusion hok
          · injection hok with h
            subst h
            exact try_adjust_target_utxos _

/-- C7 amended, witnessed at the successful append of B1 to s1. -/
theorem c7_add_block_preserves_utxos_witness :
    add_block cHS1 s1 B1 = Res.ok s1res ∧ s1res.utxos = s1.utxos :=
  ⟨by decide, c7_add_block_preserves_utxos cHS1 s1 B1 s1res (by decide)⟩

/-- C8.  Whenever try_adjust_target fires (non-empty chain, length a
multiple of DIFFICULTY_UPDATE_INTERVAL) with a non-negative measured
interval of actual seconds (at most 10 times the ideal) and the chain
invariant target ≤ MIN_TARGET, the new target is the exact truncated
product old * actual / ideal clamped into [old/4, old*4] and capped at
MIN_TARGET, hence lies in [old/4, min (old*4) MIN_TARGET]. -/
theorem c8_retarget (s : Blockchain) (actual : Nat)
    (h1 : ¬ s.blocks = [])
    (h2 : s.blocks.length % DIFFICULTY_UPDATE_INTERVAL = 0)
    (h3 : ((s.blocks.getLastD default).header).timestamp
        = ((s.blocks.getD (s.blocks.length - DIFFICULTY_UPDATE_INTERVAL) default).header).timestamp
          + actual)
    (h4 : actual ≤ 10 * (IDEAL_BLOCK_TIME * DIFFICULTY_UPDATE_INTERVAL))
    (h5 : s.target ≤ MIN_TARGET) :
    (try_adjust_target s).target
      = min (max (s.target / 4) (min (s.target * 4)
          (Nat.floor (((s.target * actual : Nat) : ℚ)
            / ((IDEAL_BLOCK_TIME * DIFFICULTY_UPDATE_INTERVAL : Nat) : ℚ)))))
        MIN_TARGET
    ∧ s.target / 4 ≤ (try_adjust_target s).target
    ∧ (try_adjust_target s).target ≤ min (s.target * 4) MIN_TARGET := by
  have hfloor : (Nat.floor (((s.target * actual : Nat) : ℚ)
      / ((IDEAL_BLOCK_TIME * DIFFICULTY_UPDATE_INTERVAL : Nat) : ℚ)))
      = s.target * actual / (IDEAL_BLOCK_TIME * DIFFICULTY_UPDATE_INTERVAL) :=
    Nat.floor_div_nat _ _
  have hne : s.blocks.isEmpty = false := by
    cases h : s.blocks with
    | nil => exact absurd h h1
    | cons a l => rfl
  have key : (try_adjust_target s).target
      = min (if s.target * actual / (IDEAL_BLOCK_TIME * DIFFICULTY_UPDATE_INTERVAL)
               < s.target / 4 then s.target / 4
             else if s.target * actual / (IDEAL_BLOCK_TIME * DIFFICULTY_UPDATE_INTERVAL)
               > s.target * 4 then s.target * 4
             else s.target * actual / (IDEAL_BLOCK_TIME * DIFFICULTY_UPDATE_INTERVAL))
          MIN_TARGET := by
    unfold try_adjust_target
    rw [if_neg (by simp [hne]), if_neg (Decidable.not_not.mpr h2)]
    rw [h3]
    simp only [Nat.add_sub_cancel_left]
  rw [key, hfloor]
  generalize s.target * actual / (IDEAL_BLOCK_TIME * DIFFICULTY_UPDATE_INTERVAL) = e
  have ht4 : s.target / 4 ≤ s.target * 4 := by omega
  have htM : s.target / 4 ≤ MIN_TARGET := by omega
  refine ⟨?_, ?_, ?_⟩
  · split
    · omega
    · split
      · omega
      · omega
  · split
    · omega
    · split
      · omega
      · omega
  · split
    · omega
    · split
      · omega
      · omega

/-- C8, witnessed at the 50-block chain s8 whose window measured 490
seconds against the ideal 500. -/
theorem c8_retarget_witness :
    (¬ s8.blocks = [])
    ∧ s8.blocks.length % DIFFICULTY_UPDATE_INTERVAL = 0
    ∧ ((s8.blocks.getLastD default).header).timestamp
        = ((s8.blocks.getD (s8.blocks.length - DIFFICULTY_UPDATE_INTERVAL) default).header).timestamp
          + 490
    ∧ 490 ≤ 10 * (IDEAL_BLOCK_TIME * DIFFICULTY_UPDATE_INTERVAL)
    ∧ s8.target ≤ MIN_TARGET
    ∧ ((try_adjust_target s8).target
      = min (max (s8.target / 4) (min (s8.target * 4)
          (Nat.floor (((s8.target * 490 : Nat) : ℚ)
            / ((IDEAL_BLOCK_TIME * DIFFICULTY_UPDATE_INTERVAL : Nat) : ℚ)))))
        MIN_TARGET
    ∧ s8.target / 4 ≤ (try_adjust_target s8).target
    ∧ (try_adjust_target s8).target ≤ min (s8.target * 4) MIN_TARGET) :=
  ⟨by decide, by decide, by decide, by decide, by decide,
    c8_retarget s8 490 (by decide) (by decide) (by decide) (by decide) (by decide)⟩

/-- C9.  The claim says the reward is (INITIAL_REWARD * 10^8)
right-shifted by height / HALVING_INTERVAL and stays zero from the
63rd halving on.  The mathematical shift is indeed 0 from halving 33
onward, but the source's u64 shift overflows at 64 halvings: at block
height 13440 (halvings = 64) release builds mask the shift amount to 0
and pay the full 5000000000 again (debug builds panic). -/
theorem c9_reward_reappears_at_halving_64 :
    calculate_block_reward 13440 = 5000000000
    ∧ 13440 / HALVING_INTERVAL = 64
    ∧ (INITIAL_REWARD * 10 ^ 8) >>> (13440 / HALVING_INTERVAL) = 0 := by
  refine ⟨by decide, by decide, by decide⟩

/-- C10.  get_balance returns the u64 sum of every stored output value
across all owned keys — the marked flag is never consulted, so marked
(reserved) outputs are included and re-marking can never change the
reported balance. -/
theorem c10_get_balance (w : WalletCore) :
    get_balance w = totalValue w % U64MOD
    ∧ ∀ f, get_balance (mapMarks f w) = get_balance w := by
  constructor
  · unfold get_balance totalValue
    rw [wsum_eq]
    have h1 : (w.utxos.map (fun e => wsum (e.2.map (fun p => p.1.value))))
        = w.utxos.map (fun e => (e.2.map (fun p => p.1.value)).sum % U64MOD) := by
      simp only [wsum_eq]
    rw [h1, sum_map_mod]
  · intro f
    unfold get_balance mapMarks
    simp [Function.comp_def, List.map_map]
